import Mathlib

/-!
Verification of the EEG signal-analysis toolkit core.

This file shallowly embeds the signal-processing and rule-engine core of the
repository — the filter-parameter validator (`utils/filter_validation.py`),
the preprocessing pipeline (`preprocessor/preprocessor.py`), the spectral
band-power computation and coherence guard (`analyzer/analyzer.py`), the
rhythm-state classifier and specific-recommendation generator
(`analyzer/analyzer.py`), and the medical-alert generator
(`app/visualization.py`) — and proves or refutes the specification's claims
about them.

Real-valued quantities are modelled by rationals (`ℚ`): every arithmetic
operation the embedded code performs (+, -, *, /, max, min, comparisons)
is exact over `ℚ`, so the embedded functions compute the idealised
real-number semantics of the Python source.  External library calls
(scipy filters, scipy coherence, the FFT kernel) are not repository code;
they are treated as abstract inputs or free constructors, as noted at each
definition.
-/

namespace EEG

/-! ## FilterValidator (`src/utils/filter_validation.py`)

`validate_bandpass_params` applies five correction stages in sequence to a
`(low_freq, high_freq)` pair; each stage may rewrite the pair and append a
warning.  The Russian warning strings of the source carry no data beyond
which correction fired, so warnings are embedded as tags. -/

inductive FilterWarning where
  | lowNonpositive      -- "Нижняя частота была меньше или равна 0 ..."
  | highNonpositive     -- "Верхняя частота была меньше или равна 0 ..."
  | swapped             -- "Частоты были переставлены местами ..."
  | defaulted           -- "Некорректный диапазон частот, установлены значения по умолчанию ..."
  | highAboveNyquist    -- "Верхняя частота превышала частоту Найквиста ..."
  | tooNarrow           -- "Слишком узкий диапазон частот, расширен ..."
  | lowNormTooSmall     -- "Нормализованная нижняя частота слишком мала ..."
  | highNormTooLarge    -- "Нормализованная верхняя частота слишком велика ..."
  | notchNonpositive    -- "Частота notch фильтра была меньше или равна 0 ..."
  | notchAboveNyquist   -- "Частота notch фильтра превышала частоту Найквиста ..."
  | notchNormTooSmall   -- "Нормализованная частота notch фильтра слишком мала ..."
  | notchNormTooLarge   -- "Нормализованная частота notch фильтра слишком велика ..."
deriving DecidableEq, Repr

/-- Stage 1 of `validate_bandpass_params`: a non-positive low frequency is
reset to 0.1 Hz, a non-positive high frequency to 40.0 Hz. -/
def bpFixNonpos (l h : ℚ) : ℚ × ℚ × List FilterWarning :=
  let pl := if l ≤ 0 then ((0.1 : ℚ), [FilterWarning.lowNonpositive]) else (l, [])
  let ph := if h ≤ 0 then ((40.0 : ℚ), [FilterWarning.highNonpositive]) else (h, [])
  (pl.1, ph.1, pl.2 ++ ph.2)

/-- Stage 2: if `low >= high` after stage 1, either swap (when the original
arguments satisfied `orig_low > orig_high`) or reset to the defaults 1.0/40.0. -/
def bpFixOrder (l h origL origH : ℚ) : ℚ × ℚ × List FilterWarning :=
  if l ≥ h then
    if origL > origH then (h, l, [FilterWarning.swapped])
    else ((1.0 : ℚ), (40.0 : ℚ), [FilterWarning.defaulted])
  else (l, h, [])

/-- Stage 3: a high frequency at or above Nyquist is clamped to `nyquist * 0.95`. -/
def bpClampNyquist (l h nyq : ℚ) : ℚ × ℚ × List FilterWarning :=
  if h ≥ nyq then (l, nyq * 0.95, [FilterWarning.highAboveNyquist]) else (l, h, [])

/-- Stage 4: a band narrower than `min_separation = 0.5` Hz is re-centred and
widened, with the new endpoints clamped to `[0.1, nyquist * 0.95]`. -/
def bpWidenNarrow (l h nyq : ℚ) : ℚ × ℚ × List FilterWarning :=
  if h - l < 0.5 then
    let center := (l + h) / 2
    (max 0.1 (center - 0.5 / 2), min (nyq * 0.95) (center + 0.5 / 2),
      [FilterWarning.tooNarrow])
  else (l, h, [])

/-- Stage 5: normalised-frequency floor and ceiling.  Both conditions are
evaluated on the stage-4 values (the source computes `low_norm`/`high_norm`
once, before either branch). -/
def bpNormalizeBounds (l h nyq : ℚ) : ℚ × ℚ × List FilterWarning :=
  let pl := if l / nyq < 0.001 then (nyq * 0.001, [FilterWarning.lowNormTooSmall]) else (l, [])
  let ph := if h / nyq > 0.999 then (nyq * 0.999, [FilterWarning.highNormTooLarge]) else (h, [])
  (pl.1, ph.1, pl.2 ++ ph.2)

/-- `FilterValidator.validate_bandpass_params`
(`src/utils/filter_validation.py`, lines 3–52): the five correction stages
applied in source order, warnings concatenated in emission order. -/
def validate_bandpass_params (low_freq high_freq sampling_rate : ℚ) :
    ℚ × ℚ × List FilterWarning :=
  let nyquist := sampling_rate / 2
  let p1 := bpFixNonpos low_freq high_freq
  let p2 := bpFixOrder p1.1 p1.2.1 low_freq high_freq
  let p3 := bpClampNyquist p2.1 p2.2.1 nyquist
  let p4 := bpWidenNarrow p3.1 p3.2.1 nyquist
  let p5 := bpNormalizeBounds p4.1 p4.2.1 nyquist
  (p5.1, p5.2.1, p1.2.2 ++ p2.2.2 ++ p3.2.2 ++ p4.2.2 ++ p5.2.2)

/-- `FilterValidator.validate_notch_params`
(`src/utils/filter_validation.py`, lines 54–78).  As in the source,
`freq_norm` is computed once after the Nyquist clamp, so both the floor and
the ceiling test the clamped value. -/
def validate_notch_params (notch_freq sampling_rate : ℚ) : ℚ × List FilterWarning :=
  let nyquist := sampling_rate / 2
  let p1 := if notch_freq ≤ 0 then ((50.0 : ℚ), [FilterWarning.notchNonpositive])
            else (notch_freq, [])
  let p2 := if p1.1 ≥ nyquist then (nyquist * 0.8, [FilterWarning.notchAboveNyquist])
            else (p1.1, [])
  let p3 := if p2.1 / nyquist < 0.001 then (nyquist * 0.001, [FilterWarning.notchNormTooSmall])
            else (p2.1, [])
  let p4 := if p2.1 / nyquist > 0.999 then (nyquist * 0.999, [FilterWarning.notchNormTooLarge])
            else (p3.1, [])
  (p4.1, p1.2 ++ p2.2 ++ p3.2 ++ p4.2)

example : validate_bandpass_params 1000 2000 250 =
    (559.125, 118.75, [FilterWarning.highAboveNyquist, FilterWarning.tooNarrow]) := by
  norm_num [validate_bandpass_params, bpFixNonpos, bpFixOrder, bpClampNyquist,
    bpWidenNarrow, bpNormalizeBounds]

example : validate_bandpass_params 1 40 250 = (1, 40, []) := by
  norm_num [validate_bandpass_params, bpFixNonpos, bpFixOrder, bpClampNyquist,
    bpWidenNarrow, bpNormalizeBounds]

example : validate_bandpass_params 0.1 0.2 250 =
    (0.125, 0.4, [FilterWarning.tooNarrow, FilterWarning.lowNormTooSmall]) := by
  norm_num [validate_bandpass_params, bpFixNonpos, bpFixOrder, bpClampNyquist,
    bpWidenNarrow, bpNormalizeBounds]

example : validate_notch_params 0 250 = (50, [FilterWarning.notchNonpositive]) := by
  norm_num [validate_notch_params]

/-! ### Invariants of the bandpass validator stages -/

lemma bpFixNonpos_pos (l h : ℚ) : 0 < (bpFixNonpos l h).1 ∧ 0 < (bpFixNonpos l h).2.1 := by
  unfold bpFixNonpos
  split_ifs with h1 h2 h2
  · exact ⟨by norm_num, by norm_num⟩
  · exact ⟨by norm_num, not_le.mp h2⟩
  · exact ⟨not_le.mp h1, by norm_num⟩
  · exact ⟨not_le.mp h1, not_le.mp h2⟩

lemma bpFixOrder_pos {l h : ℚ} (oL oH : ℚ) (hl : 0 < l) (hh : 0 < h) :
    0 < (bpFixOrder l h oL oH).1 ∧ 0 < (bpFixOrder l h oL oH).2.1 := by
  unfold bpFixOrder
  split_ifs
  · exact ⟨hh, hl⟩
  · exact ⟨by norm_num, by norm_num⟩
  · exact ⟨hl, hh⟩

lemma bpClampNyquist_bounds {l h nyq : ℚ} (hn : 0 < nyq) (hl : 0 < l) (hh : 0 < h) :
    0 < (bpClampNyquist l h nyq).1 ∧ 0 < (bpClampNyquist l h nyq).2.1 ∧
      (bpClampNyquist l h nyq).2.1 < nyq := by
  unfold bpClampNyquist
  split_ifs with h1 <;> refine ⟨by linarith, ?_, ?_⟩ <;> linarith

lemma bpWidenNarrow_bounds {l h nyq : ℚ} (hn : 0 < nyq) (hl : 0 < l) (hh : 0 < h)
    (hhn : h < nyq) :
    0 < (bpWidenNarrow l h nyq).1 ∧ 0 < (bpWidenNarrow l h nyq).2.1 ∧
      (bpWidenNarrow l h nyq).2.1 < nyq := by
  unfold bpWidenNarrow
  split_ifs with h1
  · refine ⟨lt_max_of_lt_left (by norm_num), lt_min (by linarith) (by linarith), ?_⟩
    calc min (nyq * 0.95) ((l + h) / 2 + 0.5 / 2) ≤ nyq * 0.95 := min_le_left _ _
      _ < nyq := by linarith
  · exact ⟨hl, hh, hhn⟩

lemma bpNormalizeBounds_bounds {l h nyq : ℚ} (hn : 0 < nyq) (hl : 0 < l) (hh : 0 < h)
    (hhn : h < nyq) :
    0 < (bpNormalizeBounds l h nyq).1 ∧ 0 < (bpNormalizeBounds l h nyq).2.1 ∧
      (bpNormalizeBounds l h nyq).2.1 < nyq := by
  unfold bpNormalizeBounds
  split_ifs <;> refine ⟨?_, ?_, ?_⟩ <;> first | linarith | nlinarith

/-- The normalised-frequency floor: after stage 5 the low cut-off is at least
`nyquist * 0.001`. -/
lemma bpNormalizeBounds_floor {l h nyq : ℚ} (hn : 0 < nyq) :
    nyq * 0.001 ≤ (bpNormalizeBounds l h nyq).1 := by
  unfold bpNormalizeBounds
  split_ifs with h1 h2 h2 <;> simp only
  any_goals linarith
  all_goals
    rw [not_lt, le_div_iff₀ hn] at h1
    linarith

/-- The normalised-frequency ceiling: after stage 5 the high cut-off is at most
`nyquist * 0.999`. -/
lemma bpNormalizeBounds_ceil {l h nyq : ℚ} (hn : 0 < nyq) :
    (bpNormalizeBounds l h nyq).2.1 ≤ nyq * 0.999 := by
  unfold bpNormalizeBounds
  split_ifs with h1 h2 h2 <;> simp only
  any_goals linarith
  all_goals
    rw [not_lt, div_le_iff₀ hn] at h2
    linarith

lemma validate_bandpass_low_floor (l h sr : ℚ) (hsr : 0 < sr) :
    sr / 2 * 0.001 ≤ (validate_bandpass_params l h sr).1 := by
  simp only [validate_bandpass_params]
  exact bpNormalizeBounds_floor (by linarith)

lemma validate_bandpass_high_ceil (l h sr : ℚ) (hsr : 0 < sr) :
    (validate_bandpass_params l h sr).2.1 ≤ sr / 2 * 0.999 := by
  simp only [validate_bandpass_params]
  exact bpNormalizeBounds_ceil (by linarith)

/-! ### Stage identity lemmas: a pair inside a stage's tolerance passes through -/

lemma bpFixNonpos_id {l h : ℚ} (hl : 0 < l) (hh : 0 < h) : bpFixNonpos l h = (l, h, []) := by
  simp [bpFixNonpos, hl.not_le, hh.not_le]

lemma bpFixOrder_id {l h : ℚ} (oL oH : ℚ) (hlh : l < h) : bpFixOrder l h oL oH = (l, h, []) := by
  simp [bpFixOrder, hlh.not_le]

lemma bpClampNyquist_id {l h nyq : ℚ} (hhn : h < nyq) : bpClampNyquist l h nyq = (l, h, []) := by
  simp [bpClampNyquist, hhn.not_le]

lemma bpWidenNarrow_id {l h nyq : ℚ} (hsep : 0.5 ≤ h - l) : bpWidenNarrow l h nyq = (l, h, []) := by
  simp [bpWidenNarrow, not_lt.mpr hsep]

lemma bpNormalizeBounds_id {l h nyq : ℚ} (hfl : 0.001 ≤ l / nyq) (hcl : h / nyq ≤ 0.999) :
    bpNormalizeBounds l h nyq = (l, h, []) := by
  simp [bpNormalizeBounds, not_lt.mpr hfl, not_lt.mpr hcl]

/-- Any pair already satisfying the validator's floor, ceiling and minimum
separation invariants passes through every stage unchanged with no warnings. -/
lemma validate_bandpass_fixed_of_safe {l h sr : ℚ} (hsr : 0 < sr)
    (hfloor : sr / 2 * 0.001 ≤ l) (hceil : h ≤ sr / 2 * 0.999) (hsep : 0.5 ≤ h - l) :
    validate_bandpass_params l h sr = (l, h, []) := by
  have hn : 0 < sr / 2 := by linarith
  have hl0 : 0 < l := by nlinarith
  have hh0 : 0 < h := by linarith
  have hlh : l < h := by linarith
  have hhn : h < sr / 2 := by nlinarith
  have hfl : 0.001 ≤ l / (sr / 2) := by rw [le_div_iff₀ hn]; linarith
  have hcl : h / (sr / 2) ≤ 0.999 := by rw [div_le_iff₀ hn]; linarith
  simp only [validate_bandpass_params, bpFixNonpos_id hl0 hh0, bpFixOrder_id,
    bpClampNyquist_id hhn, bpWidenNarrow_id hsep, bpNormalizeBounds_id hfl hcl, hlh]
  simp

/-- The corrected notch frequency is strictly positive whenever the sampling
rate is (`validate_notch_params` maps non-positive inputs to 50 Hz first). -/
lemma validate_notch_pos (nf sr : ℚ) (hsr : 0 < sr) : 0 < (validate_notch_params nf sr).1 := by
  have hn : 0 < sr / 2 := by linarith
  simp only [validate_notch_params]
  split_ifs with h1 h2 h3 h4 <;> simp only <;> push_neg at * <;> linarith

/-! ## Claim C1 — "Nyquist safety" of `validate_bandpass_params` -/

/-- C1, counterexample: at `low_freq = 1000`, `high_freq = 2000`,
`sampling_rate = 250` (a requested band lying entirely above Nyquist), the
validator returns `(559.125, 118.75)`: the corrected low frequency exceeds the
corrected high frequency, so `0 < low < high < nyquist` fails. -/
theorem nyquist_safety_cex :
    (validate_bandpass_params 1000 2000 250).1 = 559.125 ∧
      (validate_bandpass_params 1000 2000 250).2.1 = 118.75 ∧
      ¬ ((validate_bandpass_params 1000 2000 250).1 <
          (validate_bandpass_params 1000 2000 250).2.1) := by
  norm_num [validate_bandpass_params, bpFixNonpos, bpFixOrder, bpClampNyquist,
    bpWidenNarrow, bpNormalizeBounds]

/-- C1, amended: for every `sampling_rate > 0` and arbitrary
`(low_freq, high_freq)`, the validator's output satisfies `0 < low`,
`0 < high` and `high < nyquist`; the remaining inequality `low < high` of the
original claim can fail (see the counterexample). -/
theorem validate_bandpass_output_bounds (l h sr : ℚ) (hsr : 0 < sr) :
    0 < (validate_bandpass_params l h sr).1 ∧ 0 < (validate_bandpass_params l h sr).2.1 ∧
      (validate_bandpass_params l h sr).2.1 < sr / 2 := by
  have hn : 0 < sr / 2 := by linarith
  simp only [validate_bandpass_params]
  obtain ⟨h1l, h1h⟩ := bpFixNonpos_pos l h
  obtain ⟨h2l, h2h⟩ := @bpFixOrder_pos (bpFixNonpos l h).1 (bpFixNonpos l h).2.1 l h h1l h1h
  obtain ⟨h3l, h3h, h3n⟩ := bpClampNyquist_bounds hn h2l h2h
  obtain ⟨h4l, h4h, h4n⟩ := bpWidenNarrow_bounds hn h3l h3h h3n
  exact bpNormalizeBounds_bounds hn h4l h4h h4n

/-- Witness for C1's amended theorem at `(1000, 2000, 250)`. -/
theorem validate_bandpass_output_bounds_witness :
    0 < (250 : ℚ) ∧
      (0 < (validate_bandpass_params 1000 2000 250).1 ∧
        0 < (validate_bandpass_params 1000 2000 250).2.1 ∧
        (validate_bandpass_params 1000 2000 250).2.1 < 250 / 2) :=
  ⟨by norm_num, validate_bandpass_output_bounds 1000 2000 250 (by norm_num)⟩

/-! ## Claim C5 — idempotence of `validate_bandpass_params` -/

/-- C5, counterexample: at `(0.1, 0.2, 250)` the validator returns
`(0.125, 0.4)`, whose bandwidth `0.275` is below the 0.5 Hz minimum
separation; a second application widens the band again (to `(0.125, 0.5125)`)
and emits warnings, so the corrected output is not a fixed point. -/
theorem validator_idempotence_cex :
    validate_bandpass_params (validate_bandpass_params 0.1 0.2 250).1
        (validate_bandpass_params 0.1 0.2 250).2.1 250 ≠
      ((validate_bandpass_params 0.1 0.2 250).1,
        (validate_bandpass_params 0.1 0.2 250).2.1, []) := by
  norm_num [validate_bandpass_params, bpFixNonpos, bpFixOrder, bpClampNyquist,
    bpWidenNarrow, bpNormalizeBounds]

/-- C5, amended: the corrected output of `validate_bandpass_params` is a fixed
point (returned unchanged with an empty warning list) whenever its bandwidth is
at least the 0.5 Hz minimum separation — the floor/ceiling invariants hold for
every output, so the narrow-band re-expansion is the only way idempotence
fails. -/
theorem validator_idempotent_on_wide_output (l h sr : ℚ) (hsr : 0 < sr)
    (hsep : 0.5 ≤ (validate_bandpass_params l h sr).2.1 - (validate_bandpass_params l h sr).1) :
    validate_bandpass_params (validate_bandpass_params l h sr).1
        (validate_bandpass_params l h sr).2.1 sr =
      ((validate_bandpass_params l h sr).1, (validate_bandpass_params l h sr).2.1, []) :=
  validate_bandpass_fixed_of_safe hsr (validate_bandpass_low_floor l h sr hsr)
    (validate_bandpass_high_ceil l h sr hsr) hsep

/-- Witness for C5's amended theorem at `(1, 40, 250)`. -/
theorem validator_idempotent_on_wide_output_witness :
    (0 < (250 : ℚ) ∧
      0.5 ≤ (validate_bandpass_params 1 40 250).2.1 - (validate_bandpass_params 1 40 250).1) ∧
      validate_bandpass_params (validate_bandpass_params 1 40 250).1
          (validate_bandpass_params 1 40 250).2.1 250 =
        ((validate_bandpass_params 1 40 250).1, (validate_bandpass_params 1 40 250).2.1, []) :=
  ⟨⟨by norm_num, by norm_num [validate_bandpass_params, bpFixNonpos, bpFixOrder,
      bpClampNyquist, bpWidenNarrow, bpNormalizeBounds]⟩,
    validator_idempotent_on_wide_output 1 40 250 (by norm_num)
      (by norm_num [validate_bandpass_params, bpFixNonpos, bpFixOrder,
        bpClampNyquist, bpWidenNarrow, bpNormalizeBounds])⟩

/-! ## Claim C10 — inputs already in tolerance pass through unchanged -/

/-- C10: inputs satisfying `low ≥ 0.001 * nyquist`, `high ≤ 0.999 * nyquist`
and `high - low ≥ 0.5` (with `sampling_rate > 0`, which the spec requires
callers to pre-validate) are returned unchanged with an empty warning list:
warnings are emitted only when a value is actually corrected. -/
theorem validate_bandpass_id_on_safe_inputs (l h sr : ℚ) (hsr : 0 < sr)
    (hfloor : 0.001 * (sr / 2) ≤ l) (hceil : h ≤ 0.999 * (sr / 2)) (hsep : 0.5 ≤ h - l) :
    validate_bandpass_params l h sr = (l, h, []) :=
  validate_bandpass_fixed_of_safe hsr (by linarith) (by linarith) hsep

/-- Witness for C10 at `(1, 40, 250)`. -/
theorem validate_bandpass_id_on_safe_inputs_witness :
    (0 < (250 : ℚ) ∧ 0.001 * ((250 : ℚ) / 2) ≤ 1 ∧ (40 : ℚ) ≤ 0.999 * (250 / 2) ∧
      (0.5 : ℚ) ≤ 40 - 1) ∧
      validate_bandpass_params 1 40 250 = (1, 40, []) :=
  ⟨⟨by norm_num, by norm_num, by norm_num, by norm_num⟩,
    validate_bandpass_id_on_safe_inputs 1 40 250 (by norm_num) (by norm_num) (by norm_num)
      (by norm_num)⟩

/-! ## Preprocessor pipeline (`src/preprocessor/preprocessor.py`, `apply_filters`)

`bandpass_filter` (lines 47–93) and `notch_filter` (lines 96–135) are
repository code: each runs its own parameter guards — raising `ValueError`
when they fail — and clamps the normalized frequencies before handing them to
scipy's `butter`/`iirnotch`/`filtfilt`.  The guards and clamps are embedded
exactly; only the scipy transforms themselves (external library code) are
recorded as free constructors carrying the normalized parameters they
receive: two pipeline outputs are equal exactly when the same stages were
applied with the same final parameters. -/

inductive SignalExpr where
  | raw
  | bandpassed (s : SignalExpr) (low high : ℚ)   -- butter(4, [low, high]) + filtfilt
  | notched (s : SignalExpr) (freq : ℚ)          -- iirnotch(freq, 30) + filtfilt
deriving DecidableEq

inductive FilterError where
  | lowNonpositive      -- "Нижняя частота должна быть больше 0 ..."
  | highAboveNyquist    -- "Верхняя частота ... должна быть меньше частоты Найквиста ..."
  | lowNotBelowHigh     -- "Нижняя частота ... должна быть меньше верхней ..."
  | lowNormOutOfRange   -- "Нормализованная нижняя частота ... вне допустимого диапазона (0, 1)"
  | highNormOutOfRange  -- "Нормализованная верхняя частота ... вне допустимого диапазона (0, 1)"
  | notchNonpositive    -- "Частота notch фильтра должна быть больше 0 ..."
  | notchAboveNyquist   -- "Частота notch фильтра ... должна быть меньше частоты Найквиста ..."
  | notchNormOutOfRange -- "Нормализованная частота notch фильтра ... вне допустимого диапазона (0, 1)"
deriving DecidableEq

/-- `EEGPreprocessor.bandpass_filter` (lines 47–93): the three raw-frequency
guards, the two normalized-frequency guards, the 0.001/0.999 clamps, then the
external butter/filtfilt transform on the final normalized cutoffs. -/
def bandpass_filter (data : SignalExpr) (sampling_rate low_freq high_freq : ℚ) :
    Except FilterError SignalExpr :=
  let nyquist := sampling_rate / 2
  if low_freq ≤ 0 then Except.error FilterError.lowNonpositive
  else if high_freq ≥ nyquist then Except.error FilterError.highAboveNyquist
  else if low_freq ≥ high_freq then Except.error FilterError.lowNotBelowHigh
  else
    let low := low_freq / nyquist
    let high := high_freq / nyquist
    if low ≤ 0 ∨ low ≥ 1 then Except.error FilterError.lowNormOutOfRange
    else if high ≤ 0 ∨ high ≥ 1 then Except.error FilterError.highNormOutOfRange
    else
      let low1 := if low < 0.001 then (0.001 : ℚ) else low
      let high1 := if high > 0.999 then (0.999 : ℚ) else high
      Except.ok (SignalExpr.bandpassed data low1 high1)

/-- `EEGPreprocessor.notch_filter` (lines 96–135): same structure for the
single notch frequency (quality factor fixed at 30). -/
def notch_filter (data : SignalExpr) (sampling_rate notch_freq : ℚ) :
    Except FilterError SignalExpr :=
  let nyquist := sampling_rate / 2
  if notch_freq ≤ 0 then Except.error FilterError.notchNonpositive
  else if notch_freq ≥ nyquist then Except.error FilterError.notchAboveNyquist
  else
    let freq := notch_freq / nyquist
    if freq ≤ 0 ∨ freq ≥ 1 then Except.error FilterError.notchNormOutOfRange
    else
      let f1 := if freq < 0.001 then (0.001 : ℚ) else freq
      let f2 := if f1 > 0.999 then (0.999 : ℚ) else f1
      Except.ok (SignalExpr.notched data f2)

/-- `EEGPreprocessor.apply_filters` (lines 15–45): validate both parameter
sets, run the band-pass stage (whose own guards may raise), then the notch
stage gated on `corrected_notch > 0`; an exception aborts the pipeline. -/
def apply_filters (data : SignalExpr) (sampling_rate low_freq high_freq notch_freq : ℚ) :
    Except FilterError SignalExpr := do
  let bp := validate_bandpass_params low_freq high_freq sampling_rate
  let nt := validate_notch_params notch_freq sampling_rate
  let filtered ← bandpass_filter data sampling_rate bp.1 bp.2.1
  if nt.1 > 0 then notch_filter filtered sampling_rate nt.1
  else pure filtered

/-- The band-pass stage's own guards reject the validator-corrected band when
the validator outputs an inverted pair: the pipeline raises and the notch
stage never runs (cf. the C1 counterexample (1000, 2000, 250)). -/
example : apply_filters SignalExpr.raw 250 1000 2000 50 =
    Except.error FilterError.lowNotBelowHigh := by
  norm_num [apply_filters, bandpass_filter, validate_bandpass_params, bpFixNonpos,
    bpFixOrder, bpClampNyquist, bpWidenNarrow, bpNormalizeBounds, Bind.bind, Except.bind]

/-- The corrected notch frequency stays strictly below Nyquist whenever the
sampling rate is positive. -/
lemma validate_notch_lt_nyquist (nf sr : ℚ) (hsr : 0 < sr) :
    (validate_notch_params nf sr).1 < sr / 2 := by
  have hn : 0 < sr / 2 := by linarith
  simp only [validate_notch_params]
  split_ifs with h1 h2 h3 h4 <;> simp only <;> push_neg at * <;> linarith

/-- With a target frequency strictly between 0 and Nyquist, `notch_filter`'s
guards all pass and the notch transform is applied at a positive normalized
frequency. -/
lemma notch_filter_ok (d : SignalExpr) {sr f : ℚ} (h0 : 0 < f) (hn : f < sr / 2) :
    ∃ g, 0 < g ∧ notch_filter d sr f = Except.ok (SignalExpr.notched d g) := by
  have hnyq : 0 < sr / 2 := lt_trans h0 hn
  have hfrac0 : 0 < f / (sr / 2) := div_pos h0 hnyq
  have hfrac1 : f / (sr / 2) < 1 := (div_lt_one hnyq).mpr hn
  simp only [notch_filter]
  rw [if_neg (not_le.mpr h0), if_neg (not_le.mpr hn),
    if_neg (by push_neg; exact ⟨hfrac0, hfrac1⟩)]
  by_cases hc : f / (sr / 2) < 0.001
  · refine ⟨0.001, by norm_num, ?_⟩
    rw [if_pos hc, if_neg (by norm_num)]
  · by_cases hd : f / (sr / 2) > 0.999
    · refine ⟨0.999, by norm_num, ?_⟩
      rw [if_neg hc, if_pos hd]
    · exact ⟨f / (sr / 2), hfrac0, by rw [if_neg hc, if_neg hd]⟩

/-! ## Claim C8 — the notch stage and non-positive `notch_freq` -/

/-- C8, counterexample: with `notch_freq = 0` (non-positive) at
`sampling_rate = 250`, the validator corrects the notch frequency to 50 Hz, so
the gate `corrected_notch > 0` passes and the notch stage runs: the output
(band (1, 40) Hz normalizes to (1/125, 8/25), the 50 Hz notch to 2/5) is not
the band-pass-filtered data alone. -/
theorem notch_skip_cex :
    (0 : ℚ) ≤ 0 ∧
      apply_filters SignalExpr.raw 250 1 40 0 =
        Except.ok (SignalExpr.notched
          (SignalExpr.bandpassed SignalExpr.raw (1 / 125) (8 / 25)) (2 / 5)) ∧
      apply_filters SignalExpr.raw 250 1 40 0 ≠
        Except.ok (SignalExpr.bandpassed SignalExpr.raw (1 / 125) (8 / 25)) := by
  refine ⟨le_refl 0, ?_, ?_⟩ <;>
    norm_num [apply_filters, bandpass_filter, notch_filter, validate_bandpass_params,
      validate_notch_params, bpFixNonpos, bpFixOrder, bpClampNyquist, bpWidenNarrow,
      bpNormalizeBounds, Bind.bind, Except.bind]
  exact fun hcon => SignalExpr.noConfusion hcon

/-- C8, amended: the notch stage is never skipped *because of* a non-positive
`notch_freq` — the gate tests the validator-corrected frequency, which is
strictly positive for every input when `sampling_rate > 0` (non-positive
inputs are corrected to 50 Hz).  When the band-pass stage raises, its error
propagates and the notch stage does not run; when the band-pass stage
succeeds, the notch stage runs and succeeds (the corrected notch frequency
lies strictly between 0 and Nyquist).  In no case is the output the
band-pass-filtered data alone. -/
theorem apply_filters_notches_or_propagates (d : SignalExpr) (sr l h nf : ℚ)
    (hsr : 0 < sr) :
    0 < (validate_notch_params nf sr).1 ∧
      (∀ e, bandpass_filter d sr (validate_bandpass_params l h sr).1
          (validate_bandpass_params l h sr).2.1 = Except.error e →
        apply_filters d sr l h nf = Except.error e) ∧
      (∀ s, bandpass_filter d sr (validate_bandpass_params l h sr).1
          (validate_bandpass_params l h sr).2.1 = Except.ok s →
        ∃ g, 0 < g ∧ apply_filters d sr l h nf =
          Except.ok (SignalExpr.notched s g)) ∧
      ∀ s lo hi, apply_filters d sr l h nf ≠
        Except.ok (SignalExpr.bandpassed s lo hi) := by
  have hp := validate_notch_pos nf sr hsr
  have hlt := validate_notch_lt_nyquist nf sr hsr
  refine ⟨hp, ?_, ?_, ?_⟩
  · intro e he
    simp only [apply_filters, Bind.bind, Except.bind, he]
  · intro s hs
    simp only [apply_filters, Bind.bind, Except.bind, hs]
    rw [if_pos hp]
    exact notch_filter_ok s hp hlt
  · intro s lo hi
    cases hbp : bandpass_filter d sr (validate_bandpass_params l h sr).1
        (validate_bandpass_params l h sr).2.1 with
    | error e => simp [apply_filters, Bind.bind, Except.bind, hbp]
    | ok filtered =>
      simp only [apply_filters, Bind.bind, Except.bind, hbp]
      rw [if_pos hp]
      obtain ⟨g, _, heq⟩ := notch_filter_ok filtered hp hlt
      rw [heq]
      intro hcon
      exact SignalExpr.noConfusion (Except.ok.inj hcon)

/-- Witness for C8's amended theorem at `(raw, 250, 1, 40, 0)`: the band-pass
stage succeeds on the corrected band (1, 40), so the notch stage runs. -/
theorem apply_filters_notches_or_propagates_witness :
    ∃ g, 0 < g ∧ apply_filters SignalExpr.raw 250 1 40 0 =
      Except.ok (SignalExpr.notched
        (SignalExpr.bandpassed SignalExpr.raw (1 / 125) (8 / 25)) g) :=
  (apply_filters_notches_or_propagates SignalExpr.raw 250 1 40 0 (by norm_num)).2.2.1
    (SignalExpr.bandpassed SignalExpr.raw (1 / 125) (8 / 25))
    (by norm_num [bandpass_filter, validate_bandpass_params, bpFixNonpos, bpFixOrder,
      bpClampNyquist, bpWidenNarrow, bpNormalizeBounds])

/-! ## Spectral power (`EEGAnalyzer.calculate_spectral_power`,
`src/analyzer/analyzer.py`, lines 171–217)

The method selects one channel, runs `scipy.fft.fft` on it, keeps the
strictly positive frequency bins, and aggregates `|X_k|² / n` into the five
rhythm bands.  `scipy.fft.fft` is an external library kernel; the pipeline is
embedded as a function of the FFT output vector (one complex value per
sample) and the sampling rate.  To exhibit *reachable* spectra, the
mathematical DFT `X_k = Σ_j x_j ω^(j·k)` (with `ω = e^(-2πi/n)`, which is what
`scipy.fft.fft` computes) is also defined below over complex numbers with
rational parts; for `n = 4` the primitive root is exactly `⟨0, -1⟩ = -i`. -/

/-- Complex numbers with rational components — the exact value domain of the
FFT on the length-4 witness signals used here. -/
structure Qi where
  re : ℚ
  im : ℚ
deriving DecidableEq

@[simp] def Qi.add (x y : Qi) : Qi := ⟨x.re + y.re, x.im + y.im⟩

@[simp] def Qi.mul (x y : Qi) : Qi := ⟨x.re * y.re - x.im * y.im, x.re * y.im + x.im * y.re⟩

/-- `np.abs z ** 2` computed exactly: the squared modulus. -/
@[simp] def Qi.normSq (x : Qi) : ℚ := x.re * x.re + x.im * x.im

@[simp] def Qi.ofRat (q : ℚ) : Qi := ⟨q, 0⟩

def Qi.zero : Qi := ⟨0, 0⟩

def Qi.one : Qi := ⟨1, 0⟩

/-- One DFT output value `Σ_j x_j · ωk^j`, evaluated Horner-style at the
`k`-th power `ωk` of the primitive root. -/
@[simp] def dftRow (x : List ℚ) (ωk : Qi) : Qi :=
  x.foldr (fun xj acc => Qi.add (Qi.ofRat xj) (Qi.mul ωk acc)) Qi.zero

/-- Rows `k = 0, 1, …` of the DFT; the first argument of the recursion is
fuel with one element per remaining row, `ωk` accumulates `ω^k`. -/
@[simp] def dftRows (x : List ℚ) (ω : Qi) : List ℚ → Qi → List Qi
  | [], _ => []
  | _ :: rest, ωk => dftRow x ωk :: dftRows x ω rest (ωk.mul ω)

/-- The discrete Fourier transform of `x` at primitive `n`-th root `ω`
(`n = x.length`): the mathematical specification of `scipy.fft.fft`. -/
def dft (x : List ℚ) (ω : Qi) : List Qi := dftRows x ω x Qi.one

/-- `scipy.fft.fftfreq n (1 / sampling_rate)` at bin `k`: `k·fs/n` for
`k < ⌈n/2⌉` and `(k−n)·fs/n` for the mirror bins. -/
@[simp] def freqOf (n : ℕ) (sr : ℚ) (k : ℕ) : ℚ :=
  (if 2 * k < n then (k : ℚ) else (k : ℚ) - (n : ℚ)) * sr / (n : ℚ)

/-- The positive-frequency part of the power spectrum as (frequency, power)
pairs: bin `k` of the FFT output is paired with `fftfreq`'s bin-`k` frequency
(`List.enum` supplies `k`), the `frequencies > 0` mask is applied, and power
is `|X_k|² / n`. -/
def positiveSpectrum (fft_result : List Qi) (sr : ℚ) : List (ℚ × ℚ) :=
  let n := fft_result.length
  ((fft_result.enum.map fun p => (freqOf n sr p.1, p.2)).filter
      fun p => decide (0 < p.1)).map
    fun p => (p.1, p.2.normSq / (n : ℚ))

/-- The five canonical rhythm bands of `EEGAnalyzer.__init__`. -/
def rhythm_bands : List (String × ℚ × ℚ) :=
  [("delta", 0.5, 4), ("theta", 4, 8), ("alpha", 8, 13), ("beta", 13, 30), ("gamma", 30, 100)]

/-- Band power: the sum of power-spectrum values whose frequency lies in
`[lo, hi]` — the inclusive mask `(frequencies >= low) & (frequencies <= high)`. -/
def bandPower (lo hi : ℚ) (spectrum : List (ℚ × ℚ)) : ℚ :=
  ((spectrum.filter fun p => decide (lo ≤ p.1) && decide (p.1 ≤ hi)).map Prod.snd).sum

/-- In how many of the five rhythm bands does frequency `f` lie? -/
def bandCount (f : ℚ) : ℕ :=
  (rhythm_bands.filter fun b => decide (b.2.1 ≤ f) && decide (f ≤ b.2.2)).length

structure SpectralResult where
  frequencies : List ℚ
  power_spectrum : List ℚ
  rhythm_power : List (String × ℚ)
  relative_power : List (String × ℚ)
  total_power : ℚ

/-- `EEGAnalyzer.calculate_spectral_power` on the FFT of the selected channel:
positive-frequency power spectrum, per-band power, total power, and relative
power `band / total` (the `peak_frequency` field, unused by any claim, is
omitted). -/
def calculate_spectral_power (fft_result : List Qi) (sampling_rate : ℚ) : SpectralResult :=
  let spectrum := positiveSpectrum fft_result sampling_rate
  let rhythm_power := rhythm_bands.map fun b => (b.1, bandPower b.2.1 b.2.2 spectrum)
  let total_power := (spectrum.map Prod.snd).sum
  ⟨spectrum.map Prod.fst, spectrum.map Prod.snd, rhythm_power,
    rhythm_power.map fun rp => (rp.1, rp.2 / total_power), total_power⟩

example : dft [1, 0, -1, 0] ⟨0, -1⟩ = [⟨0, 0⟩, ⟨2, 0⟩, ⟨0, 0⟩, ⟨2, 0⟩] := by
  norm_num [dft, Qi.zero, Qi.one]

example : positiveSpectrum (dft [1, 0, -1, 0] ⟨0, -1⟩) 16 = [(4, 1)] := by
  norm_num [dft, Qi.zero, Qi.one, positiveSpectrum, List.enum, List.enumFrom]

/-! ### Summing band powers -/

lemma sum_ite_filter {β : Type} (q : β → Bool) (c : ℚ) (B : List β) :
    (B.map fun b => if q b = true then c else 0).sum = c * ((B.filter q).length : ℚ) := by
  induction B with
  | nil => simp
  | cons b bs ih =>
    by_cases h : q b = true
    · simp only [List.map_cons, List.sum_cons, List.filter_cons, h, if_pos, ih,
        List.length_cons]
      push_cast
      ring
    · simp [List.filter_cons, h, ih]

lemma bandPower_cons (lo hi : ℚ) (x : ℚ × ℚ) (xs : List (ℚ × ℚ)) :
    bandPower lo hi (x :: xs) =
      (if (decide (lo ≤ x.1) && decide (x.1 ≤ hi)) = true then x.2 else 0) +
        bandPower lo hi xs := by
  unfold bandPower
  by_cases h : (decide (lo ≤ x.1) && decide (x.1 ≤ hi)) = true
  · simp [List.filter_cons, h]
  · simp [List.filter_cons, h]

/-- Summing the five band powers counts each spectrum bin once per band that
contains its frequency. -/
lemma sum_bandPowers (spectrum : List (ℚ × ℚ)) :
    (rhythm_bands.map fun b => bandPower b.2.1 b.2.2 spectrum).sum =
      (spectrum.map fun p => p.2 * ((bandCount p.1 : ℕ) : ℚ)).sum := by
  induction spectrum with
  | nil => simp [bandPower]
  | cons x xs ih =>
    have hmap : (rhythm_bands.map fun b => bandPower b.2.1 b.2.2 (x :: xs)) =
        rhythm_bands.map fun b =>
          (if (decide (b.2.1 ≤ x.1) && decide (x.1 ≤ b.2.2)) = true then x.2 else 0) +
            bandPower b.2.1 b.2.2 xs :=
      List.map_congr_left fun b _ => bandPower_cons b.2.1 b.2.2 x xs
    rw [hmap, List.sum_map_add, sum_ite_filter, ih]
    simp [bandCount, mul_comm]

/-- If every spectrum frequency lies in exactly one band, band powers sum to
the total power. -/
lemma sum_bandPowers_of_cover {spectrum : List (ℚ × ℚ)}
    (h : ∀ f ∈ spectrum.map Prod.fst, bandCount f = 1) :
    (rhythm_bands.map fun b => bandPower b.2.1 b.2.2 spectrum).sum =
      (spectrum.map Prod.snd).sum := by
  rw [sum_bandPowers]
  refine congrArg List.sum (List.map_congr_left fun p hp => ?_)
  rw [h p.1 (List.mem_map_of_mem Prod.fst hp)]
  simp

/-- Every power value of the positive spectrum is non-negative
(`|X_k|² / n` with `n ≥ 0`). -/
lemma positiveSpectrum_snd_nonneg (fft_result : List Qi) (sr : ℚ) :
    ∀ p ∈ positiveSpectrum fft_result sr, 0 ≤ p.2 := by
  intro p hp
  simp only [positiveSpectrum, List.mem_map] at hp
  obtain ⟨q, _, rfl⟩ := hp
  have h1 : 0 ≤ q.2.normSq := by
    simp only [Qi.normSq]
    nlinarith [sq_nonneg q.2.re, sq_nonneg q.2.im]
  exact div_nonneg h1 (by positivity)

/-! ## Claim C2 — relative powers summing to 1 -/

/-- C2, counterexample: the length-4 signal `[1, 0, -1, 0]` at
`sampling_rate = 1000` has its single positive-frequency bin at 250 Hz —
outside every rhythm band (gamma ends at 100 Hz).  Total power is 1 (> 0) but
the relative powers sum to 0, far beyond any 1e-6 tolerance of 1. -/
theorem relative_power_sum_cex :
    (calculate_spectral_power (dft [1, 0, -1, 0] ⟨0, -1⟩) 1000).total_power = 1 ∧
      ((calculate_spectral_power (dft [1, 0, -1, 0] ⟨0, -1⟩) 1000).relative_power.map
          Prod.snd).sum = 0 ∧
      ¬ |((calculate_spectral_power (dft [1, 0, -1, 0] ⟨0, -1⟩) 1000).relative_power.map
            Prod.snd).sum - 1| ≤ 0.000001 := by
  norm_num [calculate_spectral_power, positiveSpectrum, dft, Qi.zero, Qi.one,
    List.enum, List.enumFrom, bandPower, rhythm_bands, abs]

/-- C2, amended: the relative powers sum to exactly 1 when `total_power > 0`
*and* every positive-frequency bin lies in exactly one rhythm band; bins
outside all bands (below 0.5 Hz or above 100 Hz) or on a boundary shared by
two bands (4, 8, 13, 30 Hz are counted in both adjacent bands by the
inclusive masks) make the sum deviate. -/
theorem relative_power_sums_to_one (fft_result : List Qi) (sr : ℚ)
    (htot : 0 < (calculate_spectral_power fft_result sr).total_power)
    (hcover : ∀ f ∈ (calculate_spectral_power fft_result sr).frequencies, bandCount f = 1) :
    ((calculate_spectral_power fft_result sr).relative_power.map Prod.snd).sum = 1 := by
  simp only [calculate_spectral_power] at htot hcover ⊢
  rw [List.map_map, List.map_map]
  simp only [Function.comp_def, div_eq_mul_inv]
  rw [List.sum_map_mul_right]
  have hb : (rhythm_bands.map
      fun b => (Prod.snd (b.1, bandPower b.2.1 b.2.2 (positiveSpectrum fft_result sr)))).sum =
        ((positiveSpectrum fft_result sr).map Prod.snd).sum := by
    simpa using sum_bandPowers_of_cover hcover
  simpa [hb] using mul_inv_cancel₀ (ne_of_gt htot)

/-- Witness for C2's amended theorem: `[1, 0, -1, 0]` at 10 Hz puts all power
in a single bin at 2.5 Hz, inside the delta band only. -/
theorem relative_power_sums_to_one_witness :
    ((calculate_spectral_power (dft [1, 0, -1, 0] ⟨0, -1⟩) 10).relative_power.map
        Prod.snd).sum = 1 :=
  relative_power_sums_to_one (dft [1, 0, -1, 0] ⟨0, -1⟩) 10
    (by norm_num [calculate_spectral_power, positiveSpectrum, dft, Qi.zero, Qi.one,
      List.enum, List.enumFrom])
    (by
      norm_num [calculate_spectral_power, positiveSpectrum, dft, Qi.zero, Qi.one,
        List.enum, List.enumFrom]
      norm_num [bandCount, rhythm_bands, List.filter])

/-! ## Claim C3 — band powers bounded by the total power -/

/-- C3, counterexample: `[1, 0, -1, 0]` at `sampling_rate = 16` puts all power
in a single bin at exactly 4 Hz — the shared boundary of delta
`(0.5, 4)` and theta `(4, 8)`.  Both inclusive masks count it, so the rhythm
powers sum to 2 while the total power is 1: the bands are *not* disjoint and
the claimed bound fails. -/
theorem band_coverage_cex :
    (calculate_spectral_power (dft [1, 0, -1, 0] ⟨0, -1⟩) 16).total_power = 1 ∧
      ((calculate_spectral_power (dft [1, 0, -1, 0] ⟨0, -1⟩) 16).rhythm_power.map
          Prod.snd).sum = 2 ∧
      ¬ ((calculate_spectral_power (dft [1, 0, -1, 0] ⟨0, -1⟩) 16).rhythm_power.map
            Prod.snd).sum ≤
          (calculate_spectral_power (dft [1, 0, -1, 0] ⟨0, -1⟩) 16).total_power := by
  norm_num [calculate_spectral_power, positiveSpectrum, dft, Qi.zero, Qi.one,
    List.enum, List.enumFrom, bandPower, rhythm_bands, List.filter]

/-- C3, amended: `sum(rhythm_power.values()) <= total_power` holds whenever no
positive-frequency bin lies in more than one band (the bands' interiors are
disjoint, but the inclusive `[low, high]` masks share the boundary
frequencies 4, 8, 13 and 30 Hz, which are counted twice when a bin falls
exactly there). -/
theorem rhythm_power_le_total (fft_result : List Qi) (sr : ℚ)
    (hdisj : ∀ f ∈ (calculate_spectral_power fft_result sr).frequencies, bandCount f ≤ 1) :
    ((calculate_spectral_power fft_result sr).rhythm_power.map Prod.snd).sum ≤
      (calculate_spectral_power fft_result sr).total_power := by
  simp only [calculate_spectral_power] at hdisj ⊢
  rw [List.map_map]
  simp only [Function.comp_def]
  have hrw : (rhythm_bands.map
      fun b => (Prod.snd (b.1, bandPower b.2.1 b.2.2 (positiveSpectrum fft_result sr)))).sum =
        ((positiveSpectrum fft_result sr).map
          fun p => p.2 * ((bandCount p.1 : ℕ) : ℚ)).sum := by
    simpa using sum_bandPowers (positiveSpectrum fft_result sr)
  rw [hrw]
  have hmono : ((positiveSpectrum fft_result sr).map
      fun p => p.2 * ((bandCount p.1 : ℕ) : ℚ)).sum ≤
        ((positiveSpectrum fft_result sr).map fun p => p.2).sum := by
    refine List.sum_le_sum fun p hp => ?_
    have h1 : ((bandCount p.1 : ℕ) : ℚ) ≤ 1 := by
      exact_mod_cast hdisj p.1 (List.mem_map_of_mem Prod.fst hp)
    have h2 : 0 ≤ p.2 := positiveSpectrum_snd_nonneg fft_result sr p hp
    nlinarith
  simpa using hmono

/-- Witness for C3's amended theorem: at 1000 Hz the single 250 Hz bin lies in
no band (`bandCount = 0 ≤ 1`), and `0 = sum(rhythm_power) ≤ total_power = 1`. -/
theorem rhythm_power_le_total_witness :
    ((calculate_spectral_power (dft [1, 0, -1, 0] ⟨0, -1⟩) 1000).rhythm_power.map
        Prod.snd).sum ≤
      (calculate_spectral_power (dft [1, 0, -1, 0] ⟨0, -1⟩) 1000).total_power :=
  rhythm_power_le_total (dft [1, 0, -1, 0] ⟨0, -1⟩) 1000
    (by
      norm_num [calculate_spectral_power, positiveSpectrum, dft, Qi.zero, Qi.one,
        List.enum, List.enumFrom]
      norm_num [bandCount, rhythm_bands, List.filter])

/-! ## Rhythm state classification (`EEGAnalyzer.analyze_rhythm_state`,
`src/analyzer/analyzer.py`, lines 60–82) -/

inductive RhythmState where
  | low      -- "НИЗКАЯ"
  | normal   -- "НОРМАЛЬНАЯ"
  | high     -- "ВЫСОКАЯ"
deriving DecidableEq

/-- The hard-coded per-band normal relative-power ranges. -/
def normal_ranges : List (String × ℚ × ℚ) :=
  [("delta", 0.05, 0.25), ("theta", 0.05, 0.15), ("alpha", 0.10, 0.30),
    ("beta", 0.15, 0.25), ("gamma", 0.05, 0.15)]

/-- `analyze_rhythm_state`: range looked up with fallback `(0.05, 0.25)`, then
strict `<` / `>` comparisons (the per-state recommendation string depends only
on the state and is omitted). -/
def analyze_rhythm_state (rhythm : String) (relative_power : ℚ) : RhythmState :=
  let r := (normal_ranges.lookup rhythm).getD (0.05, 0.25)
  if relative_power < r.1 then RhythmState.low
  else if relative_power > r.2 then RhythmState.high
  else RhythmState.normal

/-! ## Claim C7 — boundary relative powers classify as NORMAL -/

/-- C7: for each of the five bands, a relative power exactly equal to the
documented low or high threshold classifies as NORMAL — the comparisons
against the range table are strict. -/
theorem classification_boundaries_normal :
    analyze_rhythm_state "delta" 0.05 = RhythmState.normal ∧
      analyze_rhythm_state "delta" 0.25 = RhythmState.normal ∧
      analyze_rhythm_state "theta" 0.05 = RhythmState.normal ∧
      analyze_rhythm_state "theta" 0.15 = RhythmState.normal ∧
      analyze_rhythm_state "alpha" 0.10 = RhythmState.normal ∧
      analyze_rhythm_state "alpha" 0.30 = RhythmState.normal ∧
      analyze_rhythm_state "beta" 0.15 = RhythmState.normal ∧
      analyze_rhythm_state "beta" 0.25 = RhythmState.normal ∧
      analyze_rhythm_state "gamma" 0.05 = RhythmState.normal ∧
      analyze_rhythm_state "gamma" 0.15 = RhythmState.normal := by
  simp only [analyze_rhythm_state, normal_ranges, List.lookup, String.reduceBEq,
    Option.getD_some]
  norm_num

/-! ## Recommendation generation (`EEGAnalyzer.get_specific_recommendations`,
lines 142–169, and `_generate_medical_alerts`,
`src/app/visualization.py`, lines 380–424)

Both functions read only the `'relative_power'` field of each band's analysis
dict, so the rhythm-analysis mapping is embedded as an association list
band-name → relative power.  The Russian recommendation/alert strings carry no
data beyond which branch fired and are embedded as tags. -/

abbrev RhythmMap := List (String × ℚ)

inductive SpecificRec where
  | highRelaxation   -- "Высокий уровень релаксации ..."
  | lowRelaxation    -- "Низкий уровень релаксации ..."
  | elevatedTheta    -- "Повышенная тета-активность ..."
  | lowTheta         -- "Пониженная тета-активность ..."
  | powerImbalance   -- "Обнаружен дисбаланс ..."
deriving DecidableEq

/-- Python `dict[key]`: the value, or a `KeyError` naming the key. -/
def dictGet (m : RhythmMap) (k : String) : Except String ℚ :=
  match m.lookup k with
  | some v => Except.ok v
  | none => Except.error k

/-- `get_specific_recommendations`: unguarded `rhythm_analysis['alpha']`,
`['beta']`, `['theta']` accesses (in that order), then the ratio, theta and
total-balance checks; `total_power` sums `relative_power` over *all* entries
of the mapping. -/
def get_specific_recommendations (m : RhythmMap) : Except String (List SpecificRec) := do
  let alpha_power ← dictGet m "alpha"
  let beta_power ← dictGet m "beta"
  let theta_power ← dictGet m "theta"
  let recs1 : List SpecificRec :=
    if alpha_power > 0 ∧ beta_power > 0 then
      if alpha_power / beta_power > 2.0 then [SpecificRec.highRelaxation]
      else if alpha_power / beta_power < 0.5 then [SpecificRec.lowRelaxation]
      else []
    else []
  let recs2 : List SpecificRec :=
    if theta_power > 0.20 then [SpecificRec.elevatedTheta]
    else if theta_power < 0.05 then [SpecificRec.lowTheta]
    else []
  let total_power := (m.map Prod.snd).sum
  let recs3 : List SpecificRec :=
    if |total_power - 1.0| > 0.1 then [SpecificRec.powerImbalance] else []
  pure (recs1 ++ recs2 ++ recs3)

inductive MedicalAlert where
  | highDelta       -- "Очень высокая дельта-активность ..."
  | highBeta        -- "Очень высокая бета-активность ..."
  | stressPattern   -- "Низкая альфа при высокой бета ..."
  | drowsyPattern   -- "Высокая тета при низкой дельта ..."
  | manySpikes      -- "Обнаружено повышенное количество спайков ..."
deriving DecidableEq

/-- `_generate_medical_alerts`: band powers are read with
`.get(band, {}).get('relative_power', 0)`, so a missing band contributes 0;
`spike_count` participates only when the key is present. -/
def generate_medical_alerts (m : RhythmMap) (spike_count : Option ℤ) : List MedicalAlert :=
  let delta_power := ((m.lookup "delta").getD 0 : ℚ)
  let theta_power := ((m.lookup "theta").getD 0 : ℚ)
  let alpha_power := ((m.lookup "alpha").getD 0 : ℚ)
  let beta_power := ((m.lookup "beta").getD 0 : ℚ)
  (if delta_power > 0.4 then [MedicalAlert.highDelta] else []) ++
    (if beta_power > 0.4 then [MedicalAlert.highBeta] else []) ++
    (if alpha_power < 0.05 ∧ beta_power > 0.3 then [MedicalAlert.stressPattern] else []) ++
    (if theta_power > 0.3 ∧ delta_power < 0.1 then [MedicalAlert.drowsyPattern] else []) ++
    (match spike_count with
      | some c => if c > 10 then [MedicalAlert.manySpikes] else []
      | none => [])

example : get_specific_recommendations [("alpha", 0.3), ("beta", 0.1), ("theta", 0.1)] =
    Except.ok [SpecificRec.highRelaxation, SpecificRec.powerImbalance] := by
  simp only [get_specific_recommendations, dictGet, List.lookup, String.reduceBEq]
  norm_num [Bind.bind, Except.bind, Pure.pure, Except.pure, abs, max_def]

example : generate_medical_alerts [("beta", 0.5)] (some 20) =
    [MedicalAlert.highBeta, MedicalAlert.stressPattern, MedicalAlert.manySpikes] := by
  simp only [generate_medical_alerts, List.lookup, String.reduceBEq]
  norm_num

/-! ## Claim C4 — totality of the recommendation generator over partial maps -/

/-- C4, counterexample: a rhythm-analysis map containing only `delta` makes
`get_specific_recommendations` raise `KeyError: 'alpha'` at the unguarded
`rhythm_analysis['alpha']` access — the recommendation generator *does* raise
on missing bands. -/
theorem rule_engine_totality_cex :
    get_specific_recommendations [("delta", 0.5)] = Except.error "alpha" := by
  simp only [get_specific_recommendations, dictGet, List.lookup, String.reduceBEq]
  norm_num [Bind.bind, Except.bind]

/-- Prepending an explicit zero entry for a band that is absent changes no
defaulted lookup. -/
lemma lookup_cons_zero_getD {m : RhythmMap} {r : String} (h : m.lookup r = none)
    (k : String) : ((((r, (0 : ℚ)) :: m).lookup k).getD 0) = ((m.lookup k).getD 0) := by
  by_cases hk : k = r
  · subst hk
    simp [List.lookup, h]
  · have hne : (k == r) = false := beq_eq_false_iff_ne.mpr hk
    simp [List.lookup, hne]

/-- C4, amended: the medical-alert generator is total and treats any absent
band's relative power as 0 (adding an explicit zero entry for a missing band
leaves the alerts unchanged), but `get_specific_recommendations` raises
`KeyError` exactly when `alpha`, `beta` or `theta` is absent — the
recommendation generator succeeds precisely on maps containing all three. -/
theorem alerts_total_but_specific_recs_need_keys :
    (∀ (m : RhythmMap) (sc : Option ℤ) (r : String), m.lookup r = none →
        generate_medical_alerts ((r, 0) :: m) sc = generate_medical_alerts m sc) ∧
      ∀ m : RhythmMap, (get_specific_recommendations m).isOk = true ↔
        ((m.lookup "alpha").isSome ∧ (m.lookup "beta").isSome ∧
          (m.lookup "theta").isSome) := by
  constructor
  · intro m sc r h
    simp only [generate_medical_alerts, lookup_cons_zero_getD h]
  · intro m
    unfold get_specific_recommendations dictGet
    cases ha : m.lookup "alpha" <;> cases hb : m.lookup "beta" <;>
      cases ht : m.lookup "theta" <;>
      simp [Bind.bind, Except.bind, Except.isOk, Except.toBool, Pure.pure, Except.pure,
        Functor.map, Except.map]

/-- Witness for C4's amended theorem: adding `("alpha", 0)` to the empty map
leaves the alerts unchanged, and the delta-only map fails the key test. -/
theorem alerts_total_but_specific_recs_need_keys_witness :
    generate_medical_alerts [("alpha", (0 : ℚ))] Option.none =
        generate_medical_alerts [] Option.none ∧
      ((get_specific_recommendations [("delta", (0.5 : ℚ))]).isOk = true ↔
        (([(("delta" : String), (0.5 : ℚ))].lookup "alpha").isSome ∧
          ([(("delta" : String), (0.5 : ℚ))].lookup "beta").isSome ∧
          ([(("delta" : String), (0.5 : ℚ))].lookup "theta").isSome)) :=
  ⟨alerts_total_but_specific_recs_need_keys.1 [] Option.none "alpha" (by simp),
    alerts_total_but_specific_recs_need_keys.2 [("delta", 0.5)]⟩

/-! ## Coherence guard (`EEGAnalyzer.calculate_coherence`,
`src/analyzer/analyzer.py`, lines 342–361) -/

inductive EEGData where
  | oneD (samples : List ℚ)
  | twoD (channels : List (List ℚ))
deriving DecidableEq

def EEGData.channelCount : EEGData → ℕ
  | .oneD _ => 1
  | .twoD cs => cs.length

inductive PyError where
  | valueError   -- "Для когерентности нужны многоканальные данные"
  | indexError   -- numpy out-of-range channel index
deriving DecidableEq

/-- `calculate_coherence`: raises `ValueError` unless `data.ndim == 2`, then
reads `data[channel1]` and `data[channel2]` (an `IndexError` when out of
range) and hands them to `scipy.signal.coherence` — an external library call,
abstracted here as returning the pair of selected channels. -/
def calculate_coherence (data : EEGData) (channel1 channel2 : ℕ) (sampling_rate : ℚ) :
    Except PyError (List ℚ × List ℚ) :=
  match data with
  | .oneD _ => Except.error PyError.valueError
  | .twoD cs =>
    match cs.get? channel1, cs.get? channel2 with
    | some a, some b => Except.ok (a, b)
    | some _, none => Except.error PyError.indexError
    | none, _ => Except.error PyError.indexError

/-! ## Claim C6 — ValueError iff single-channel data -/

/-- C6, counterexample: a two-dimensional array with a single channel *is*
single-channel data, yet `calculate_coherence` accepts it (the guard tests
only `data.ndim != 2`): with both channel indices 0 it reaches the library
call and succeeds. -/
theorem coherence_single_channel_cex :
    EEGData.channelCount (EEGData.twoD [[1, 2, 3]]) = 1 ∧
      calculate_coherence (EEGData.twoD [[1, 2, 3]]) 0 0 250 =
        Except.ok ([1, 2, 3], [1, 2, 3]) := by
  constructor <;> rfl

/-- C6, amended: `calculate_coherence` raises the "multichannel data required"
`ValueError` exactly when the input array is one-dimensional; any
two-dimensional array is accepted regardless of channel count, and with
in-range channel indices the call succeeds (out-of-range indices give an
index error instead). -/
theorem coherence_valueerror_iff_oneD (data : EEGData) (c1 c2 : ℕ) (sr : ℚ) :
    (calculate_coherence data c1 c2 sr = Except.error PyError.valueError ↔
        ∃ xs, data = EEGData.oneD xs) ∧
      ∀ cs, data = EEGData.twoD cs → c1 < cs.length → c2 < cs.length →
        (calculate_coherence data c1 c2 sr).isOk = true := by
  cases data with
  | oneD xs =>
    refine ⟨⟨fun _ => ⟨xs, rfl⟩, fun _ => rfl⟩, ?_⟩
    intro cs hcs
    exact absurd hcs (by simp [calculate_coherence])
  | twoD cs =>
    constructor
    · simp only [calculate_coherence]
      cases h1 : cs.get? c1 <;> cases h2 : cs.get? c2 <;> simp
    · intro cs' hcs' hl1 hl2
      obtain rfl : cs' = cs := by injection hcs' with h; exact h.symm
      simp only [calculate_coherence]
      rw [List.get?_eq_get hl1, List.get?_eq_get hl2]
      rfl

/-- Witness for C6's amended theorem at a concrete two-channel array. -/
theorem coherence_valueerror_iff_oneD_witness :
    (calculate_coherence (EEGData.twoD [[1, 2], [3, 4]]) 0 1 250).isOk = true :=
  (coherence_valueerror_iff_oneD (EEGData.twoD [[1, 2], [3, 4]]) 0 1 250).2
    [[1, 2], [3, 4]] rfl (by norm_num) (by norm_num)

/-! ## Artifact removal (`EEGPreprocessor.remove_artifacts`,
`src/preprocessor/preprocessor.py`, lines 147–166)

Per channel: `mean = np.mean`, `std = np.std` (population), the outlier mask
`|x - mean| > threshold * std`, and — when any outlier exists — the whole
channel is replaced by `np.interp(indices, indices[~outliers],
data[~outliers])`.  `std` is an irrational square root in general, so the
mask comparison is decided over `ℚ` through its exact square-free equivalent
(see `isOutlier`); `np.interp` is given its textbook definition (clamped
piecewise-linear through the anchor points). -/

def listMean (xs : List ℚ) : ℚ := xs.sum / (xs.length : ℚ)

/-- Population variance (`np.std ** 2`). -/
def listVar (xs : List ℚ) : ℚ :=
  ((xs.map fun x => (x - listMean xs) ^ 2).sum) / (xs.length : ℚ)

/-- The mask `|x - mean| > threshold * std` with `std = √var`, decided exactly
over `ℚ`: for `t ≥ 0` both sides are non-negative and the comparison is
equivalent to its square, `(x - mean)² > t²·var`; for `t < 0` the right side
is `≤ 0`, so the strict comparison holds unless `|x - mean| = 0 = t·√var`
(that is, unless `var = 0` and `x = mean`). -/
def isOutlier (x mean v t : ℚ) : Bool :=
  if 0 ≤ t then decide ((x - mean) ^ 2 > t ^ 2 * v)
  else decide (0 < v ∨ x ≠ mean)

/-- `np.interp` at integer query point `j` against anchors `(index, value)`
with strictly increasing indices: clamped to the end values outside the anchor
range, linear between consecutive anchors. -/
def interpolate : List (ℕ × ℚ) → ℕ → ℚ
  | [], _ => 0
  | [(_, f0)], _ => f0
  | (x0, f0) :: (x1, f1) :: rest, j =>
    if j ≤ x0 then f0
    else if j ≤ x1 then
      f0 + (f1 - f0) * ((j : ℚ) - (x0 : ℚ)) / ((x1 : ℚ) - (x0 : ℚ))
    else interpolate ((x1, f1) :: rest) j

/-- One channel of `remove_artifacts`: when any outlier exists, every sample
is replaced by the interpolant over the non-outlier anchors (`np.interp`
raises `ValueError` on an empty anchor list); otherwise the channel is
returned untouched. -/
def remove_artifacts_channel (xs : List ℚ) (t : ℚ) : Except String (List ℚ) :=
  let mean := listMean xs
  let v := listVar xs
  let enumerated := xs.enum
  if enumerated.any fun p => isOutlier p.2 mean v t then
    let anchors := enumerated.filter fun p => ! isOutlier p.2 mean v t
    if anchors.isEmpty then Except.error "ValueError: array of sample points is empty"
    else Except.ok (enumerated.map fun p => interpolate anchors p.1)
  else Except.ok xs

/-- `remove_artifacts`: channel-by-channel replacement on a copy of the data;
an exception in any channel aborts the whole call. -/
def remove_artifacts (data : List (List ℚ)) (t : ℚ) : Except String (List (List ℚ)) :=
  match data with
  | [] => Except.ok []
  | ch :: rest => do
    let ch' ← remove_artifacts_channel ch t
    let rest' ← remove_artifacts rest t
    pure (ch' :: rest')

example : remove_artifacts [[0, 0, 0, 100]] 1 = Except.ok [[0, 0, 0, 0]] := by
  norm_num [remove_artifacts, remove_artifacts_channel, listMean, listVar, isOutlier,
    List.enum, List.enumFrom, interpolate, Bind.bind, Except.bind, Pure.pure, Except.pure]

/-- The interpolant passes exactly through every anchor point (anchor indices
strictly increasing). -/
lemma interpolate_anchor :
    ∀ anchors : List (ℕ × ℚ), (anchors.Pairwise fun a b => a.1 < b.1) →
      ∀ j v, (j, v) ∈ anchors → interpolate anchors j = v := by
  intro anchors
  induction anchors with
  | nil => intro _ j v hv; cases hv
  | cons a rest ih =>
    intro hpw j v hv
    obtain ⟨x0, f0⟩ := a
    cases rest with
    | nil =>
      have heq := List.mem_singleton.mp hv
      injection heq with hj hv2
      subst hj
      subst hv2
      rfl
    | cons b rest' =>
      obtain ⟨x1, f1⟩ := b
      rcases List.mem_cons.mp hv with heq | hmem
      · injection heq with hj hv2
        subst hj
        subst hv2
        simp [interpolate]
      · have hx0j : x0 < j := (List.pairwise_cons.mp hpw).1 (j, v) hmem
        have htail : ((x1, f1) :: rest').Pairwise fun a b => a.1 < b.1 :=
          (List.pairwise_cons.mp hpw).2
        rcases List.mem_cons.mp hmem with heq1 | hmem' <;>
          simp only [interpolate, not_le.mpr hx0j, if_false]
        · injection heq1 with hj hv2
          subst hj
          subst hv2
          have hne : ((j : ℚ) - (x0 : ℚ)) ≠ 0 := by
            have hc : (x0 : ℚ) < (j : ℚ) := by exact_mod_cast hx0j
            linarith
          rw [if_pos le_rfl, mul_div_assoc, div_self hne]
          ring
        · have hx1j : x1 < j := (List.pairwise_cons.mp htail).1 (j, v) hmem'
          rw [if_neg (not_le.mpr hx1j)]
          exact ih htail j v hmem

/-- The enumerated channel has strictly increasing indices. -/
lemma enum_pairwise (xs : List ℚ) : xs.enum.Pairwise fun a b => a.1 < b.1 := by
  have h := List.pairwise_lt_range xs.length
  rw [← List.enum_map_fst xs] at h
  exact List.pairwise_map.mp h

/-- Per-channel frame property: when `remove_artifacts_channel` succeeds,
every non-outlier sample is returned unchanged at its index. -/
lemma remove_artifacts_channel_frame {xs ys : List ℚ} {t : ℚ}
    (hok : remove_artifacts_channel xs t = Except.ok ys) :
    ∀ j x, xs.get? j = some x →
      isOutlier x (listMean xs) (listVar xs) t = false → ys.get? j = some x := by
  intro j x hget hno
  simp only [remove_artifacts_channel] at hok
  by_cases hany : (xs.enum.any fun p => isOutlier p.2 (listMean xs) (listVar xs) t) = true
  · rw [if_pos hany] at hok
    set anchors := xs.enum.filter fun p => ! isOutlier p.2 (listMean xs) (listVar xs) t
      with hanchors
    by_cases hemp : anchors.isEmpty
    · rw [if_pos hemp] at hok
      cases hok
    · rw [if_neg hemp] at hok
      injection hok with hys
      subst hys
      have hmemenum : (j, x) ∈ xs.enum := by
        rw [List.mk_mem_enum_iff_getElem?]
        rw [← List.get?_eq_getElem?]
        exact hget
      have hmem : (j, x) ∈ anchors := by
        rw [hanchors, List.mem_filter]
        exact ⟨hmemenum, by simp [hno]⟩
      have hpw : anchors.Pairwise fun a b => a.1 < b.1 :=
        (enum_pairwise xs).sublist (List.filter_sublist _)
      have henum : xs.enum[j]? = some (j, x) := by
        rw [List.getElem?_enum, ← List.get?_eq_getElem?, hget]
        rfl
      rw [List.get?_eq_getElem?, List.getElem?_map, henum]
      simp [interpolate_anchor anchors hpw j x hmem]
  · rw [if_neg hany] at hok
    injection hok with hys
    subst hys
    exact hget

/-! ## Claim C9 — artifact removal leaves non-outlier samples unchanged -/

/-- C9: whenever `remove_artifacts` returns, every sample not marked as an
outlier of its channel (`|x - mean| > threshold * std`) is returned unchanged
at its position — only the outlier samples are altered. -/
theorem remove_artifacts_preserves_non_outliers :
    ∀ (data cleaned : List (List ℚ)) (t : ℚ),
      remove_artifacts data t = Except.ok cleaned →
      ∀ i ch, data.get? i = some ch →
        ∀ j x, ch.get? j = some x →
          isOutlier x (listMean ch) (listVar ch) t = false →
          ∃ ch', cleaned.get? i = some ch' ∧ ch'.get? j = some x := by
  intro data
  induction data with
  | nil =>
    intro cleaned t hok i ch hch
    cases i <;> cases hch
  | cons c rest ih =>
    intro cleaned t hok i ch hch j x hx hno
    cases hc : remove_artifacts_channel c t with
    | error e =>
      rw [remove_artifacts, hc] at hok
      cases hok
    | ok c' =>
      cases hr : remove_artifacts rest t with
      | error e =>
        rw [remove_artifacts, hc] at hok
        simp only [Bind.bind, Except.bind, hr] at hok
        cases hok
      | ok rest' =>
        rw [remove_artifacts, hc] at hok
        simp only [Bind.bind, Except.bind, hr, Pure.pure, Except.pure] at hok
        obtain rfl : cleaned = c' :: rest' := by
          cases hok
          rfl
        cases i with
        | zero =>
          injection hch with hcc
          subst hcc
          exact ⟨c', rfl, remove_artifacts_channel_frame hc j x hx hno⟩
        | succ n =>
          exact ih rest' t hr n ch hch j x hx hno

/-- Witness for C9 at `[[0, 0, 0, 100]]`, threshold 1: the channel mean is
25 and the variance 1875, so only the 100 sample is an outlier
(`75² > 1875 ≥ 25²`); the returned data is `[[0, 0, 0, 0]]` and the
non-outlier sample at index 0 is unchanged. -/
theorem remove_artifacts_preserves_non_outliers_witness :
    ∃ ch', (([[(0 : ℚ), 0, 0, 0]] : List (List ℚ)).get? 0 = some ch') ∧
      ch'.get? 0 = some 0 :=
  remove_artifacts_preserves_non_outliers [[0, 0, 0, 100]] [[0, 0, 0, 0]] 1
    (by norm_num [remove_artifacts, remove_artifacts_channel, listMean, listVar, isOutlier,
      List.enum, List.enumFrom, interpolate, Bind.bind, Except.bind, Pure.pure, Except.pure])
    0 [0, 0, 0, 100] rfl 0 0 rfl
    (by norm_num [isOutlier, listMean, listVar])

end EEG
